import Mathlib

/-!
# Formal model of the modelskill matching-and-scoring core

The repository's published sources contain the documentation, CI configuration
and the data-download notebook; the matching-and-scoring engine itself
(metric library, time alignment, Comparer, ComparerCollection) is specified
in `spec.md` but its code is not among the provided files.  Those components
are therefore modelled here directly from the specification text, and the
download helper `file_download` is embedded from `notebooks/Download.ipynb`.

Conventions: numeric series are lists of rationals; an "undefined"/NaN metric
result is `Option.none`; a metric failure is an `Except.error`.
-/

/-- Modelled from the spec: error taxonomy of the metric library (§4.1, §7).
`insufficientData` is raised whenever a metric is requested with n < 2. -/
inductive MetricError where
  | insufficientData
deriving DecidableEq

/-- Arithmetic mean of a list of rationals (0 for the empty list). -/
def mean (l : List ℚ) : ℚ := l.sum / l.length

/-- Modelled from the spec: bias numerator, mean(mod − obs) (§4.1). -/
def biasVal (obs md : List ℚ) : ℚ :=
  mean (List.zipWith (fun m o => m - o) md obs)

/-- Modelled from the spec: mean absolute error value, mean(|mod − obs|) (§4.1). -/
def maeVal (obs md : List ℚ) : ℚ :=
  mean (List.zipWith (fun m o => |m - o|) md obs)

/-- Modelled from the spec: mean squared error, mean((mod − obs)²) (§4.1);
`rmse` is its square root. -/
def mseVal (obs md : List ℚ) : ℚ :=
  mean (List.zipWith (fun m o => (m - o) ^ 2) md obs)

/-- Modelled from the spec: unbiased mean squared error,
mean(((mod − mean(mod)) − (obs − mean(obs)))²) (§4.1); `urmse` is its square root. -/
def umseVal (obs md : List ℚ) : ℚ :=
  mean (List.zipWith (fun m o => ((m - mean md) - (o - mean obs)) ^ 2) md obs)

/-- Population variance of a list, mean((x − mean)²). -/
def varVal (l : List ℚ) : ℚ := mean (l.map fun x => (x - mean l) ^ 2)

/-- Covariance numerator used by the Pearson correlation coefficient. -/
def covVal (obs md : List ℚ) : ℚ :=
  mean (List.zipWith (fun o m => (o - mean obs) * (m - mean md)) obs md)

/-- Total sum of squares of the observations, sum((obs − mean(obs))²) (§4.1, r2). -/
def sstVal (obs : List ℚ) : ℚ := (obs.map fun x => (x - mean obs) ^ 2).sum

/-- Residual sum of squares, sum((mod − obs)²) (§4.1, r2). -/
def ssqVal (obs md : List ℚ) : ℚ :=
  (List.zipWith (fun m o => (m - o) ^ 2) md obs).sum

/-- Modelled from the spec: `bias` metric = mean(mod − obs); fails with
`InsufficientDataError` if n < 2 (§4.1). -/
def bias (obs md : List ℚ) : Except MetricError ℚ :=
  if obs.length < 2 then .error .insufficientData else .ok (biasVal obs md)

/-- Modelled from the spec: `mae` metric = mean(|mod − obs|); fails with
`InsufficientDataError` if n < 2 (§4.1). -/
def mae (obs md : List ℚ) : Except MetricError ℚ :=
  if obs.length < 2 then .error .insufficientData else .ok (maeVal obs md)

/-- Modelled from the spec: `rmse` metric = sqrt(mean((mod − obs)²)); fails with
`InsufficientDataError` if n < 2 (§4.1). -/
noncomputable def rmse (obs md : List ℚ) : Except MetricError ℝ :=
  if obs.length < 2 then .error .insufficientData
  else .ok (Real.sqrt (mseVal obs md))

/-- Modelled from the spec: `urmse` metric = sqrt(mean(((mod − mean(mod)) −
(obs − mean(obs)))²)); fails with `InsufficientDataError` if n < 2 (§4.1). -/
noncomputable def urmse (obs md : List ℚ) : Except MetricError ℝ :=
  if obs.length < 2 then .error .insufficientData
  else .ok (Real.sqrt (umseVal obs md))

/-- Modelled from the spec: `cc` metric = Pearson correlation coefficient;
returns the NaN signal (`none`) when the variance of either series is zero,
and fails with `InsufficientDataError` if n < 2 (§4.1). -/
noncomputable def cc (obs md : List ℚ) : Except MetricError (Option ℝ) :=
  if obs.length < 2 then .error .insufficientData
  else if varVal obs = 0 ∨ varVal md = 0 then .ok none
  else .ok (some ((covVal obs md : ℝ) /
    Real.sqrt ((varVal obs : ℝ) * (varVal md : ℝ))))

/-- Modelled from the spec: `si` (scatter index) metric = urmse / mean(obs)
when mean(obs) ≠ 0, else the NaN signal; fails with `InsufficientDataError`
if n < 2 (§4.1). -/
noncomputable def si (obs md : List ℚ) : Except MetricError (Option ℝ) :=
  if obs.length < 2 then .error .insufficientData
  else if mean obs = 0 then .ok none
  else .ok (some (Real.sqrt (umseVal obs md) / (mean obs : ℝ)))

/-- Modelled from the spec: `r2` metric = 1 − sum((mod−obs)²)/sum((obs−mean(obs))²),
the NaN signal if the denominator is zero; fails with `InsufficientDataError`
if n < 2 (§4.1). -/
def r2 (obs md : List ℚ) : Except MetricError (Option ℚ) :=
  if obs.length < 2 then .error .insufficientData
  else if sstVal obs = 0 then .ok none
  else .ok (some (1 - ssqVal obs md / sstVal obs))

/-- Modelled from the spec: one row of a Comparer's aligned table — a common
timestamp, the observed value, and one optional (possibly missing) value per
model, positionally matching the Comparer's model-name list (§3). -/
structure AlignedRow where
  time : ℤ
  obsVal : ℚ
  modVals : List (Option ℚ)
deriving DecidableEq

/-- Modelled from the spec: a Comparer binds one observation to one-or-more
aligned ModelResult series via an aligned table (§3, §4.3). -/
structure Comparer where
  obsName : String
  modelNames : List String
  rows : List AlignedRow
deriving DecidableEq

/-- The non-missing (obs, model) value pairs of model `i` in an aligned table:
rows where model `i` is missing are excluded (§4.3). -/
def pairedRows (rows : List AlignedRow) (i : ℕ) : List (ℚ × ℚ) :=
  rows.filterMap fun r => (r.modVals.getD i none).map fun v => (r.obsVal, v)

/-- Modelled from the spec: one per-model score row of `skill()` — the sample
count `n` together with every metric of §4.1 computed over the non-missing
paired rows (§4.3, §4.5). -/
structure SkillRow where
  n : ℕ
  biasSc : Except MetricError ℚ
  rmseSc : Except MetricError ℝ
  urmseSc : Except MetricError ℝ
  maeSc : Except MetricError ℚ
  ccSc : Except MetricError (Option ℝ)
  siSc : Except MetricError (Option ℝ)
  r2Sc : Except MetricError (Option ℚ)

/-- Build a skill row from a list of (obs, model) pairs. -/
noncomputable def mkSkillRow (p : List (ℚ × ℚ)) : SkillRow :=
  let obs := p.map Prod.fst
  let md := p.map Prod.snd
  ⟨p.length, bias obs md, rmse obs md, urmse obs md, mae obs md,
    cc obs md, si obs md, r2 obs md⟩

/-- Modelled from the spec: `Comparer.skill()`, per-model score row — each
model's metrics are computed over the non-missing paired rows for that model,
so each model's `n` is independent (§4.3). -/
noncomputable def Comparer.skill (c : Comparer) (i : ℕ) : SkillRow :=
  mkSkillRow (pairedRows c.rows i)

/-- Modelled from the spec: `filter_by_time(start, end)` returns a new Comparer
restricted to rows whose timestamp lies in the closed interval `[start, end]`;
the original value is not modified (§4.3). -/
def Comparer.filter_by_time (c : Comparer) (tStart tEnd : ℤ) : Comparer :=
  { c with rows := c.rows.filter fun r => tStart ≤ r.time ∧ r.time ≤ tEnd }

/-- Modelled from the spec: an ordered set of Comparers, one per observation
(§3, §4.4). -/
structure ComparerCollection where
  comparers : List Comparer

/-- The non-missing paired rows of model `m` (looked up by name) in one
Comparer; empty when the Comparer does not contain the model. -/
def Comparer.pairedRowsFor (c : Comparer) (m : String) : List (ℚ × ℚ) :=
  match c.modelNames.indexOf? m with
  | some i => pairedRows c.rows i
  | none => []

/-- Per-observation skill of model `m`, looked up by name (§4.3). -/
noncomputable def Comparer.skillFor (c : Comparer) (m : String) : SkillRow :=
  mkSkillRow (c.pairedRowsFor m)

/-- Modelled from the spec: the pooled paired sample used by
`ComparerCollection.skill(by=["model"])` — all observations' paired rows for
model `m` concatenated into one sample before computing scores (§4.4). -/
def ComparerCollection.pooledRows (cs : ComparerCollection) (m : String) :
    List (ℚ × ℚ) :=
  (cs.comparers.map fun c => c.pairedRowsFor m).flatten

/-- Modelled from the spec: `ComparerCollection.skill(by=["model"])` — metrics
computed over the pooled (concatenated) sample, a distinct operation from
averaging per-observation scores (§4.4). -/
noncomputable def ComparerCollection.skillByModel (cs : ComparerCollection)
    (m : String) : SkillRow :=
  mkSkillRow (cs.pooledRows m)

/-- Modelled from the spec: error taxonomy of alignment (§4.2, §7).
`noOverlap` is raised when zero rows survive alignment. -/
inductive AlignError where
  | noOverlap
deriving DecidableEq

/-- Absolute value on ℤ, written out so that it evaluates by kernel
reduction. -/
def absZ (x : ℤ) : ℤ := if x < 0 then -x else x

/-- Modelled from the spec: nearest-neighbor-with-tolerance temporal matching —
the value of the series point whose timestamp is nearest to `t` and within
`tol`; `none` when no timestamp of the series falls within tolerance (§4.2).
Ties keep the earlier candidate. -/
def nearestWithin (tol t : ℤ) (pts : List (ℤ × ℚ)) : Option ℚ :=
  match pts.filter (fun p => absZ (p.1 - t) ≤ tol) with
  | [] => none
  | c :: rest =>
    some ((rest.foldl
      (fun b p => if absZ (p.1 - t) < absZ (b.1 - t) then p else b) c).2)

/-- Modelled from the spec: the surviving rows of time alignment — for each
observation timestamp, each model's nearest timestamp within tolerance is
matched; rows where no model has a match are dropped entirely, rows where only
some models match keep missing markers for the unmatched models (§4.2). -/
def alignRows (tol : ℤ) (obs : List (ℤ × ℚ))
    (models : List (List (ℤ × ℚ))) : List AlignedRow :=
  obs.filterMap fun p =>
    let mvs := models.map fun s => nearestWithin tol p.1 s
    if mvs.any Option.isSome then some ⟨p.1, p.2, mvs⟩ else none

/-- Modelled from the spec: the Time Alignment step — produces the aligned
table, or raises `NoOverlapError` when zero rows survive (§4.2). -/
def align (tol : ℤ) (obs : List (ℤ × ℚ))
    (models : List (List (ℤ × ℚ))) : Except AlignError (List AlignedRow) :=
  let rows := alignRows tol obs models
  if rows.isEmpty then .error .noOverlap else .ok rows

/-- The observation series recoverable from an aligned table: the common
timestamps with the observed column. -/
def tableObsSeries (rows : List AlignedRow) : List (ℤ × ℚ) :=
  rows.map fun r => (r.time, r.obsVal)

/-- The model series recoverable from an aligned table: for each of the `k`
models, the timestamps where that model is non-missing, with its values. -/
def tableModelSeries (rows : List AlignedRow) (k : ℕ) :
    List (List (ℤ × ℚ)) :=
  (List.range k).map fun i =>
    rows.filterMap fun r => (r.modVals.getD i none).map fun v => (r.time, v)

/-- Self-alignment of an aligned table with `k` models: re-running alignment of
the aligned data against itself (§8, idempotence property). -/
def selfAlign (tol : ℤ) (k : ℕ) (rows : List AlignedRow) : List AlignedRow :=
  alignRows tol (tableObsSeries rows) (tableModelSeries rows k)

/-- Effect of `file_download` on the target file: either the download is
skipped (the existing file is left untouched) or the response body is written,
overwriting the file.  From `notebooks/Download.ipynb`. -/
inductive DownloadAction where
  | skip
  | write (content : List ℕ)
deriving DecidableEq

/-- The observable inputs of `file_download`: the HTTP response, with the
optional content-length header and the streamed body chunks (bytes). -/
structure HttpResponse where
  contentLength : Option ℕ
  chunks : List (List ℕ)

/-- Embedded from `notebooks/Download.ipynb`, `file_download(url, filename)`:
`size` is the content-length header, taken as 0 when absent; if a file exists
at `filename` and its size equals `size`, the download is skipped; otherwise
the body is written to `filename` chunk by chunk.  `existing` is the content
of the file currently at `filename`, if any. -/
def file_download (r : HttpResponse) (existing : Option (List ℕ)) :
    DownloadAction :=
  let size := r.contentLength.getD 0
  match existing with
  | some contentOnDisk =>
    if size = contentOnDisk.length then .skip else .write r.chunks.flatten
  | none => .write r.chunks.flatten

/-! ## Helper lemmas -/

lemma pairedRows_length (rows : List AlignedRow) (i : ℕ) :
    (pairedRows rows i).length =
      rows.countP fun r => (r.modVals.getD i none).isSome := by
  induction rows with
  | nil => rfl
  | cons r rs ih =>
    simp only [pairedRows, List.filterMap_cons] at ih ⊢
    rw [List.countP_cons]
    cases h : r.modVals.getD i none with
    | none => simp [h]; simpa using ih
    | some v => simp [h]; simpa using ih

/-! ## Claims -/

/-- C1.  The sample count `n` reported by `skill()` for model `i` equals the
number of aligned rows in which that model's value is non-missing, computed
independently per model. -/
theorem skill_n_counts_nonmissing (c : Comparer) (i : ℕ) :
    (c.skill i).n = c.rows.countP fun r => (r.modVals.getD i none).isSome := by
  show (pairedRows c.rows i).length = _
  exact pairedRows_length c.rows i

/-- C2.  `ComparerCollection.skill(by=["model"])` pools by concatenating all
observations' paired rows for the model into one sample, so its `n` is the
sum of the per-observation sample counts (e.g. 10 + 5 = 15), not their
average. -/
theorem skillByModel_pools (cs : ComparerCollection) (m : String) :
    (cs.skillByModel m).n = (cs.comparers.map fun c => (c.skillFor m).n).sum := by
  show (cs.pooledRows m).length = _
  rw [ComparerCollection.pooledRows, List.length_flatten, List.map_map]
  rfl

/-- C9.  `filter_by_time(start, end)` returns a Comparer containing exactly the
rows whose timestamp lies in the closed interval `[start, end]`, keeping the
observation and model names; the original Comparer is a value and is never
mutated. -/
theorem filter_by_time_spec (c : Comparer) (t0 t1 : ℤ) :
    (∀ r, r ∈ (c.filter_by_time t0 t1).rows ↔
      r ∈ c.rows ∧ t0 ≤ r.time ∧ r.time ≤ t1) ∧
    (c.filter_by_time t0 t1).obsName = c.obsName ∧
    (c.filter_by_time t0 t1).modelNames = c.modelNames := by
  refine ⟨fun r => ?_, rfl, rfl⟩
  simp [Comparer.filter_by_time, List.mem_filter]

/-- C10.  `file_download(url, filename)` skips the download, leaving the
existing file untouched, exactly when a file exists at `filename` whose size
equals the content-length header (0 if absent); otherwise it overwrites the
file with the concatenated body chunks. -/
theorem file_download_spec (r : HttpResponse) (ex : Option (List ℕ)) :
    (file_download r ex = .skip ↔
      ∃ d, ex = some d ∧ r.contentLength.getD 0 = d.length) ∧
    (file_download r ex ≠ .skip →
      file_download r ex = .write r.chunks.flatten) := by
  cases ex with
  | none => simp [file_download]
  | some d =>
    by_cases h : r.contentLength.getD 0 = d.length <;>
      simp [file_download, h]

/-- C10 witness: a file of 2 bytes with content-length 2 is kept; with
content-length 5 it is overwritten with the body. -/
theorem file_download_spec_witness :
    file_download ⟨some 2, [[1, 2], [3]]⟩ (some [7, 7]) = .skip ∧
    file_download ⟨some 5, [[1, 2], [3]]⟩ (some [7, 7]) =
      .write (([[1, 2], [3]] : List (List ℕ)).flatten) := by
  constructor
  · exact (file_download_spec ⟨some 2, [[1, 2], [3]]⟩ (some [7, 7])).1.mpr
      ⟨[7, 7], rfl, rfl⟩
  · exact (file_download_spec ⟨some 5, [[1, 2], [3]]⟩ (some [7, 7])).2
      (by decide)

/-- C4.  Every metric of the library (bias, rmse, urmse, mae, cc, si, r2),
given equal-length inputs with n < 2, fails with `InsufficientDataError`
rather than returning a value. -/
theorem metrics_fail_below_two_samples (obs md : List ℚ)
    (_hlen : obs.length = md.length) (h : obs.length < 2) :
    bias obs md = .error .insufficientData ∧
    rmse obs md = .error .insufficientData ∧
    urmse obs md = .error .insufficientData ∧
    mae obs md = .error .insufficientData ∧
    cc obs md = .error .insufficientData ∧
    si obs md = .error .insufficientData ∧
    r2 obs md = .error .insufficientData := by
  refine ⟨?_, ?_, ?_, ?_, ?_, ?_, ?_⟩ <;>
    simp [bias, rmse, urmse, mae, cc, si, r2, h]

/-- C4 witness: on the singleton pair ([1], [2]) every metric reports
insufficient data. -/
theorem metrics_fail_below_two_samples_witness :
    bias [(1 : ℚ)] [(2 : ℚ)] = .error .insufficientData ∧
    rmse [(1 : ℚ)] [(2 : ℚ)] = .error .insufficientData ∧
    urmse [(1 : ℚ)] [(2 : ℚ)] = .error .insufficientData ∧
    mae [(1 : ℚ)] [(2 : ℚ)] = .error .insufficientData ∧
    cc [(1 : ℚ)] [(2 : ℚ)] = .error .insufficientData ∧
    si [(1 : ℚ)] [(2 : ℚ)] = .error .insufficientData ∧
    r2 [(1 : ℚ)] [(2 : ℚ)] = .error .insufficientData :=
  metrics_fail_below_two_samples [(1 : ℚ)] [(2 : ℚ)] rfl (by decide)

/-- C3.  Time alignment raises `NoOverlapError` exactly when zero rows survive
alignment, and a successful result always has nonzero row count, so the
failure is never reported as an n=0 result. -/
theorem align_noOverlap_iff_empty (tol : ℤ) (obs : List (ℤ × ℚ))
    (models : List (List (ℤ × ℚ))) :
    (align tol obs models = .error .noOverlap ↔ alignRows tol obs models = []) ∧
    ∀ rows, align tol obs models = .ok rows → 0 < rows.length := by
  have hdef : align tol obs models =
      if alignRows tol obs models = [] then .error .noOverlap
      else .ok (alignRows tol obs models) := by
    by_cases h : alignRows tol obs models = [] <;> simp [align, h]
  constructor
  · by_cases h : alignRows tol obs models = [] <;> simp [hdef, h]
  · intro rows hok
    by_cases h : alignRows tol obs models = []
    · rw [hdef, if_pos h] at hok
      cases hok
    · rw [hdef, if_neg h] at hok
      cases hok
      exact List.length_pos.mpr h

/-- C3 witness: disjoint time ranges (observation at t=0, model at t=1000,
tolerance 1) raise `NoOverlapError`; an overlapping pair yields a table with
positive row count. -/
theorem align_noOverlap_iff_empty_witness :
    align 1 [((0 : ℤ), (1 : ℚ))] [[((1000 : ℤ), (2 : ℚ))]] =
      .error .noOverlap ∧
    0 < (alignRows 1 [((0 : ℤ), (2 : ℚ))] [[((0 : ℤ), (3 : ℚ))]]).length := by
  constructor
  · exact (align_noOverlap_iff_empty 1 [((0 : ℤ), (1 : ℚ))]
      [[((1000 : ℤ), (2 : ℚ))]]).1.mpr (by decide)
  · exact (align_noOverlap_iff_empty 1 [((0 : ℤ), (2 : ℚ))]
      [[((0 : ℤ), (3 : ℚ))]]).2 _ rfl

lemma sum_zipWith_self (f : ℚ → ℚ → ℚ) (h0 : ∀ x, f x x = 0) :
    ∀ l : List ℚ, (List.zipWith f l l).sum = 0 := by
  intro l
  induction l with
  | nil => simp
  | cons a t ih => simp [h0, ih]

lemma zipWith_self_eq_map (f : ℚ → ℚ → ℚ) :
    ∀ l : List ℚ, List.zipWith f l l = l.map fun x => f x x := by
  intro l
  induction l with
  | nil => simp
  | cons a t ih => simp [ih]

lemma mean_nonneg_of (l : List ℚ) (h : ∀ x ∈ l, 0 ≤ x) : 0 ≤ mean l :=
  div_nonneg (List.sum_nonneg h) (Nat.cast_nonneg _)

lemma varVal_nonneg (l : List ℚ) : 0 ≤ varVal l := by
  refine mean_nonneg_of _ fun x hx => ?_
  obtain ⟨y, -, rfl⟩ := List.mem_map.mp hx
  exact sq_nonneg _

lemma varVal_eq_sst_div (l : List ℚ) : varVal l = sstVal l / l.length := by
  simp [varVal, sstVal, mean]

/-- C7.  When the variance of either input series is zero (e.g. both series
constant), `cc` returns the documented "undefined" NaN signal, not 0 and
not 1. -/
theorem cc_zero_variance_undefined (obs md : List ℚ)
    (_hlen : obs.length = md.length) (h2 : 2 ≤ obs.length)
    (hv : varVal obs = 0 ∨ varVal md = 0) :
    cc obs md = .ok none ∧ cc obs md ≠ .ok (some 0) ∧
    cc obs md ≠ .ok (some 1) := by
  have h1 : cc obs md = .ok none := by
    unfold cc
    rw [if_neg (by omega), if_pos hv]
  refine ⟨h1, ?_, ?_⟩ <;> simp [h1]

/-- C7 witness: two constant series of length 5 (the spec's scenario) make
`cc` report the NaN signal. -/
theorem cc_zero_variance_undefined_witness :
    cc [(1 : ℚ), 1, 1, 1, 1] [(1 : ℚ), 1, 1, 1, 1] = .ok none ∧
    cc [(1 : ℚ), 1, 1, 1, 1] [(1 : ℚ), 1, 1, 1, 1] ≠ .ok (some 0) ∧
    cc [(1 : ℚ), 1, 1, 1, 1] [(1 : ℚ), 1, 1, 1, 1] ≠ .ok (some 1) :=
  cc_zero_variance_undefined _ _ rfl (by norm_num)
    (Or.inl (by norm_num [varVal, mean]))

/-- C5 counterexample: for the constant series obs = [1, 1] (a valid series
with n = 2), comparing obs against itself does not give cc = 1 — the variance
is zero, so `cc` reports the NaN signal instead. -/
theorem identity_cc_constant_counterexample :
    cc [(1 : ℚ), 1] [(1 : ℚ), 1] ≠ .ok (some 1) := by
  have h1 : cc [(1 : ℚ), 1] [(1 : ℚ), 1] = .ok none := by
    unfold cc
    rw [if_neg (by norm_num), if_pos (Or.inl (by norm_num [varVal, mean]))]
  simp [h1]

/-- C5 (amended).  For every series obs with n ≥ 2, comparing obs against
itself yields bias = 0 and rmse = 0; cc = 1 and r2 = 1 additionally require
the series to have nonzero variance (non-constant) — for constant series cc
and r2 return the NaN signal instead (see the counterexample). -/
theorem identity_metrics_nonconstant (obs : List ℚ) (h2 : 2 ≤ obs.length) :
    bias obs obs = .ok 0 ∧ rmse obs obs = .ok 0 ∧
    (varVal obs ≠ 0 →
      cc obs obs = .ok (some 1) ∧ r2 obs obs = .ok (some 1)) := by
  have hnl : ¬ obs.length < 2 := by omega
  have hbias : biasVal obs obs = 0 := by
    rw [biasVal, mean, sum_zipWith_self _ (fun x => sub_self x), zero_div]
  have hmse : mseVal obs obs = 0 := by
    rw [mseVal, mean, sum_zipWith_self _ (fun x => by ring), zero_div]
  have hcov : covVal obs obs = varVal obs := by
    rw [covVal, zipWith_self_eq_map, varVal]
    congr 1
    exact List.map_congr_left fun x _ => (pow_two _).symm
  have hssq : ssqVal obs obs = 0 :=
    sum_zipWith_self _ (fun x => by ring) obs
  refine ⟨?_, ?_, fun hv => ⟨?_, ?_⟩⟩
  · rw [bias, if_neg hnl, hbias]
  · rw [rmse, if_neg hnl, hmse]
    norm_num
  · rw [cc, if_neg hnl, if_neg (by push_neg; exact ⟨hv, hv⟩), hcov]
    have hnn : (0 : ℝ) ≤ (varVal obs : ℝ) := by
      exact_mod_cast varVal_nonneg obs
    rw [Real.sqrt_mul_self hnn, div_self (by exact_mod_cast hv)]
  · have hsst : sstVal obs ≠ 0 := by
      intro h0
      exact hv (by rw [varVal_eq_sst_div, h0, zero_div])
    rw [r2, if_neg hnl, if_neg hsst, hssq, zero_div, sub_zero]

/-- C5 witness: the non-constant series [0, 1] compared against itself scores
bias = 0, rmse = 0, cc = 1, r2 = 1. -/
theorem identity_metrics_nonconstant_witness :
    bias [(0 : ℚ), 1] [(0 : ℚ), 1] = .ok 0 ∧
    rmse [(0 : ℚ), 1] [(0 : ℚ), 1] = .ok 0 ∧
    cc [(0 : ℚ), 1] [(0 : ℚ), 1] = .ok (some 1) ∧
    r2 [(0 : ℚ), 1] [(0 : ℚ), 1] = .ok (some 1) := by
  obtain ⟨h1, h2, h3⟩ := identity_metrics_nonconstant [(0 : ℚ), 1] (by norm_num)
  obtain ⟨h4, h5⟩ := h3 (by norm_num [varVal, mean])
  exact ⟨h1, h2, h4, h5⟩

lemma sum_zipWith_sub : ∀ (md obs : List ℚ), md.length = obs.length →
    (List.zipWith (fun m o => m - o) md obs).sum = md.sum - obs.sum := by
  intro md
  induction md with
  | nil =>
    intro obs h
    cases obs with
    | nil => simp
    | cons b t2 => simp at h
  | cons a t ih =>
    intro obs h
    cases obs with
    | nil => simp at h
    | cons b t2 =>
      simp only [List.zipWith_cons_cons, List.sum_cons]
      rw [ih t2 (by simpa using h)]
      ring

lemma sum_map_sub_sq (l : List ℚ) (c : ℚ) :
    (l.map fun x => (x - c) ^ 2).sum =
      (l.map fun x => x ^ 2).sum - 2 * c * l.sum + l.length * c ^ 2 := by
  induction l with
  | nil => simp
  | cons a t ih =>
    simp only [List.map_cons, List.sum_cons, List.length_cons, ih]
    push_cast
    ring

lemma sum_zipWith_nonneg (g : ℚ → ℚ → ℚ) (hg : ∀ a b, 0 ≤ g a b) :
    ∀ (l1 l2 : List ℚ), 0 ≤ (List.zipWith g l1 l2).sum := by
  intro l1
  induction l1 with
  | nil => intro l2; simp
  | cons a t ih =>
    intro l2
    cases l2 with
    | nil => simp
    | cons b t2 =>
      simp only [List.zipWith_cons_cons, List.sum_cons]
      have h1 := hg a b
      have h2 := ih t2
      linarith

lemma mseVal_nonneg (obs md : List ℚ) : 0 ≤ mseVal obs md := by
  rw [mseVal, mean]
  exact div_nonneg (sum_zipWith_nonneg _ (fun a b => sq_nonneg _) md obs)
    (Nat.cast_nonneg _)

lemma umseVal_nonneg (obs md : List ℚ) : 0 ≤ umseVal obs md := by
  rw [umseVal, mean]
  exact div_nonneg (sum_zipWith_nonneg _ (fun a b => sq_nonneg _) md obs)
    (Nat.cast_nonneg _)

lemma mse_umse_bias (obs md : List ℚ) (hlen : obs.length = md.length)
    (hpos : 0 < obs.length) :
    mseVal obs md = umseVal obs md + (biasVal obs md) ^ 2 := by
  set d := List.zipWith (fun m o => m - o) md obs with hd
  have hdlen : d.length = obs.length := by
    rw [hd, List.length_zipWith, ← hlen, min_self]
  have hn : ((obs.length : ℚ)) ≠ 0 := Nat.cast_ne_zero.mpr (by omega)
  have hsum : d.sum = md.sum - obs.sum := sum_zipWith_sub md obs hlen.symm
  have hbias : biasVal obs md = d.sum / obs.length := by
    rw [biasVal, ← hd, mean, hdlen]
  have hmse : mseVal obs md = (d.map fun x => x ^ 2).sum / obs.length := by
    rw [mseVal, mean,
      show List.zipWith (fun m o => (m - o) ^ 2) md obs
        = d.map fun x => x ^ 2 from by rw [hd, List.map_zipWith],
      List.length_map, hdlen]
  have humse : umseVal obs md
      = (d.map fun x => (x - (mean md - mean obs)) ^ 2).sum / obs.length := by
    rw [umseVal, mean,
      show (fun (m o : ℚ) => ((m - mean md) - (o - mean obs)) ^ 2)
        = fun m o => ((m - o) - (mean md - mean obs)) ^ 2 from by
          funext m o; ring,
      show List.zipWith (fun m o => ((m - o) - (mean md - mean obs)) ^ 2) md obs
        = d.map fun x => (x - (mean md - mean obs)) ^ 2 from by
          rw [hd, List.map_zipWith],
      List.length_map, hdlen]
  have hc : mean md - mean obs = d.sum / obs.length := by
    rw [mean, mean, hsum, hlen, div_sub_div_same]
  rw [hmse, humse, sum_map_sub_sq, hbias, hc, hdlen]
  field_simp
  ring

/-- C6.  For equal-length series with n ≥ 2, rmse ≥ urmse always, with
equality exactly when the bias is zero. -/
theorem rmse_ge_urmse_iff_bias (obs md : List ℚ)
    (hlen : obs.length = md.length) (h2 : 2 ≤ obs.length) :
    ∃ r u b, rmse obs md = .ok r ∧ urmse obs md = .ok u ∧
      bias obs md = .ok b ∧ u ≤ r ∧ (r = u ↔ b = 0) := by
  have hnl : ¬ obs.length < 2 := by omega
  have hkey := mse_umse_bias obs md hlen (by omega)
  have humse0 : 0 ≤ umseVal obs md := umseVal_nonneg obs md
  have hmse0 : 0 ≤ mseVal obs md := mseVal_nonneg obs md
  refine ⟨Real.sqrt (mseVal obs md), Real.sqrt (umseVal obs md),
    biasVal obs md, ?_, ?_, ?_, ?_, ?_⟩
  · rw [rmse, if_neg hnl]
  · rw [urmse, if_neg hnl]
  · rw [bias, if_neg hnl]
  · apply Real.sqrt_le_sqrt
    have h : umseVal obs md ≤ mseVal obs md := by
      nlinarith [sq_nonneg (biasVal obs md)]
    exact_mod_cast h
  · rw [Real.sqrt_inj (by exact_mod_cast hmse0) (by exact_mod_cast humse0)]
    constructor
    · intro heq
      have h : mseVal obs md = umseVal obs md := by exact_mod_cast heq
      have hb2 : (biasVal obs md) ^ 2 = 0 := by linarith
      exact sq_eq_zero_iff.mp hb2
    · intro hb
      have h : mseVal obs md = umseVal obs md := by rw [hkey, hb]; ring
      exact_mod_cast h

/-- C6 witness: on obs = [0, 1], mod = [1, 2] (bias 1) the theorem's
conclusion holds. -/
theorem rmse_ge_urmse_iff_bias_witness :
    ∃ r u b, rmse [(0 : ℚ), 1] [(1 : ℚ), 2] = .ok r ∧
      urmse [(0 : ℚ), 1] [(1 : ℚ), 2] = .ok u ∧
      bias [(0 : ℚ), 1] [(1 : ℚ), 2] = .ok b ∧ u ≤ r ∧ (r = u ↔ b = 0) :=
  rmse_ge_urmse_iff_bias [(0 : ℚ), 1] [(1 : ℚ), 2] rfl (by norm_num)

lemma absZ_nonneg (x : ℤ) : 0 ≤ absZ x := by
  unfold absZ
  split <;> omega

lemma absZ_eq_zero {x : ℤ} (h : absZ x = 0) : x = 0 := by
  unfold absZ at h
  split at h <;> omega

lemma foldl_pick_mem (t : ℤ) :
    ∀ (rest : List (ℤ × ℚ)) (c : ℤ × ℚ),
      rest.foldl (fun b p => if absZ (p.1 - t) < absZ (b.1 - t) then p else b) c
        ∈ c :: rest := by
  intro rest
  induction rest with
  | nil => intro c; simp
  | cons p r ih =>
    intro c
    simp only [List.foldl_cons]
    rcases List.mem_cons.mp (ih (if absZ (p.1 - t) < absZ (c.1 - t) then p else c))
      with h1 | h1
    · rw [h1]
      split
      · exact List.mem_cons_of_mem _ (List.mem_cons_self _ _)
      · exact List.mem_cons_self _ _
    · exact List.mem_cons_of_mem _ (List.mem_cons_of_mem _ h1)

lemma foldl_pick_min (t : ℤ) :
    ∀ (rest : List (ℤ × ℚ)) (c : ℤ × ℚ), ∀ q ∈ c :: rest,
      absZ ((rest.foldl
          (fun b p => if absZ (p.1 - t) < absZ (b.1 - t) then p else b) c).1 - t)
        ≤ absZ (q.1 - t) := by
  intro rest
  induction rest with
  | nil =>
    intro c q hq
    rw [List.mem_singleton.mp hq]
    exact le_refl _
  | cons p r ih =>
    intro c q hq
    simp only [List.foldl_cons]
    set c2 := if absZ (p.1 - t) < absZ (c.1 - t) then p else c with hc2
    have hc2c : absZ (c2.1 - t) ≤ absZ (c.1 - t) := by
      rw [hc2]; split <;> omega
    have hc2p : absZ (c2.1 - t) ≤ absZ (p.1 - t) := by
      rw [hc2]; split <;> omega
    rcases List.mem_cons.mp hq with rfl | hq2
    · exact le_trans (ih c2 c2 (List.mem_cons_self _ _)) hc2c
    · rcases List.mem_cons.mp hq2 with rfl | hq3
      · exact le_trans (ih c2 c2 (List.mem_cons_self _ _)) hc2p
      · exact ih c2 q (List.mem_cons_of_mem _ hq3)

lemma nearestWithin_exact (tol t : ℤ) (v : ℚ) (pts : List (ℤ × ℚ))
    (htol : 0 ≤ tol) (hmem : (t, v) ∈ pts)
    (huniq : ∀ q ∈ pts, q.1 = t → q.2 = v) :
    nearestWithin tol t pts = some v := by
  have hmemf : (t, v) ∈ pts.filter (fun p => absZ (p.1 - t) ≤ tol) := by
    refine List.mem_filter.mpr ⟨hmem, ?_⟩
    simpa [absZ] using htol
  cases hc : pts.filter (fun p => absZ (p.1 - t) ≤ tol) with
  | nil =>
    rw [hc] at hmemf
    cases hmemf
  | cons c rest =>
    unfold nearestWithin
    rw [hc]
    show some ((List.foldl
      (fun b p => if absZ (p.1 - t) < absZ (b.1 - t) then p else b) c rest).2)
        = some v
    set q := rest.foldl
      (fun b p => if absZ (p.1 - t) < absZ (b.1 - t) then p else b) c with hqd
    have hqmem : q ∈ c :: rest := foldl_pick_mem t rest c
    have hqmin : absZ (q.1 - t) ≤ absZ ((t, v).1 - t) :=
      foldl_pick_min t rest c (t, v) (hc ▸ hmemf)
    have h0 : absZ (q.1 - t) = 0 := by
      have hnn := absZ_nonneg (q.1 - t)
      have hvt : absZ ((t, v).1 - t) = 0 := by simp [absZ]
      rw [hvt] at hqmin
      omega
    have hqt : q.1 = t := by
      have := absZ_eq_zero h0
      omega
    have hqpts : q ∈ pts := List.mem_of_mem_filter (hc ▸ hqmem)
    rw [huniq q hqpts hqt]

lemma pairwise_time_inj : ∀ (rows : List AlignedRow),
    (rows.Pairwise fun a b => a.time ≠ b.time) →
    ∀ a ∈ rows, ∀ b ∈ rows, a.time = b.time → a = b := by
  intro rows
  induction rows with
  | nil =>
    intro _ a ha
    exact absurd ha (List.not_mem_nil a)
  | cons c tl ih =>
    intro h a ha b hb heq
    rw [List.pairwise_cons] at h
    rcases List.mem_cons.mp ha with rfl | ha2
    · rcases List.mem_cons.mp hb with rfl | hb2
      · rfl
      · exact absurd heq (h.1 b hb2)
    · rcases List.mem_cons.mp hb with rfl | hb2
      · exact absurd heq.symm (h.1 a ha2)
      · exact ih h.2 a ha2 b hb2 heq

lemma map_range_getD {α : Type} (d : α) (l : List α) :
    (List.range l.length).map (fun i => l.getD i d) = l := by
  apply List.ext_getElem
  · simp
  · intro i h1 h2
    simp only [List.getElem_map]
    rw [List.getElem_range i, List.getD_eq_getElem l d h2]

lemma filterMap_eq_self {α : Type} (f : α → Option α) :
    ∀ (l : List α), (∀ a ∈ l, f a = some a) → l.filterMap f = l := by
  intro l
  induction l with
  | nil => intro _; rfl
  | cons a tl ih =>
    intro h
    rw [List.filterMap_cons, h a (List.mem_cons_self _ _),
      ih fun x hx => h x (List.mem_cons_of_mem _ hx)]

/-- C8 counterexample: an aligned Comparer table (produced by `alignRows` with
tolerance 1 from obs at t=0,1 and two models, the first matching only t=0)
whose self-alignment differs: the second row's first-model entry, missing in
the original table, is filled from the value at the nearby timestamp t=0,
which lies within tolerance. -/
theorem selfAlign_not_idempotent_counterexample :
    selfAlign 1 2 (alignRows 1 [((0 : ℤ), (10 : ℚ)), (1, 20)]
        [[((-1 : ℤ), (5 : ℚ))], [((0 : ℤ), (7 : ℚ)), (1, 8)]]) ≠
      alignRows 1 [((0 : ℤ), (10 : ℚ)), (1, 20)]
        [[((-1 : ℤ), (5 : ℚ))], [((0 : ℤ), (7 : ℚ)), (1, 8)]] := by
  decide

/-- C8 (amended).  Self-alignment of an aligned table reproduces identical row
count and values provided the table is complete — no model entry is missing
(the timestamps being distinct and the tolerance nonnegative).  With missing
entries idempotence can fail (see the counterexample): a missing entry can be
filled from a non-missing row within tolerance. -/
theorem selfAlign_idempotent_of_complete (tol : ℤ) (k : ℕ)
    (rows : List AlignedRow) (htol : 0 ≤ tol) (hk : 0 < k)
    (hlen : ∀ r ∈ rows, r.modVals.length = k)
    (hsome : ∀ r ∈ rows, ∀ o ∈ r.modVals, o.isSome = true)
    (htimes : rows.Pairwise fun a b => a.time ≠ b.time) :
    selfAlign tol k rows = rows := by
  unfold selfAlign alignRows tableObsSeries
  rw [List.filterMap_map]
  apply filterMap_eq_self
  intro r hr
  have hlenr := hlen r hr
  have hmv : (tableModelSeries rows k).map
      (fun s => nearestWithin tol r.time s) = r.modVals := by
    rw [tableModelSeries, List.map_map]
    have hpt : ∀ i ∈ List.range k,
        ((fun s => nearestWithin tol r.time s) ∘ fun i =>
          rows.filterMap fun r' =>
            (r'.modVals.getD i none).map fun v => (r'.time, v)) i
          = r.modVals.getD i none := by
      intro i hik
      have hi : i < r.modVals.length := by
        rw [hlenr]
        exact List.mem_range.mp hik
      obtain ⟨v, hv⟩ : ∃ v, r.modVals.getD i none = some v := by
        have hval := hsome r hr _ (List.getElem_mem hi)
        rw [List.getD_eq_getElem r.modVals none hi]
        exact Option.isSome_iff_exists.mp hval
      rw [Function.comp_apply, hv]
      apply nearestWithin_exact tol r.time v _ htol
      · exact List.mem_filterMap.mpr ⟨r, hr, by rw [hv]; rfl⟩
      · intro q hq hqt
        obtain ⟨r', hr', hr'eq⟩ := List.mem_filterMap.mp hq
        obtain ⟨w, hw, hweq⟩ := Option.map_eq_some'.mp hr'eq
        have ht' : r'.time = q.1 := by rw [← hweq]
        have hrr : r' = r :=
          pairwise_time_inj rows htimes r' hr' r hr (by rw [ht', hqt])
        subst hrr
        rw [hv] at hw
        rw [← hweq]
        exact (Option.some.injEq _ _).mp hw.symm ▸ rfl
    rw [List.map_congr_left hpt, ← hlenr, map_range_getD]
  have h0 : 0 < r.modVals.length := by
    rw [hlenr]
    exact hk
  have hany : r.modVals.any Option.isSome = true :=
    List.any_eq_true.mpr ⟨r.modVals[0], List.getElem_mem h0,
      hsome r hr _ (List.getElem_mem h0)⟩
  simp only [Function.comp_apply, hmv, hany, if_true]

/-- C8 witness: a complete two-model aligned table (no missing entries,
distinct timestamps) is reproduced exactly by self-alignment. -/
theorem selfAlign_idempotent_of_complete_witness :
    selfAlign 1 2 [⟨0, 10, [some 5, some 7]⟩, ⟨1, 20, [some 6, some 8]⟩] =
      [⟨0, 10, [some 5, some 7]⟩, ⟨1, 20, [some 6, some 8]⟩] :=
  selfAlign_idempotent_of_complete 1 2
    [⟨0, 10, [some 5, some 7]⟩, ⟨1, 20, [some 6, some 8]⟩]
    (by decide) (by decide) (by decide) (by decide) (by decide)
